import Mathlib

/-!
Shallow embedding of `httprunner/parser.py` (template parser and
test-definition resolver) and verification of the frozen claims about it.

Strings are modelled as `List Char` (`Chars`).  Python's `re` scanning for
the variable pattern (dollar followed by word characters) and the function
pattern (dollar, open brace, word characters, parenthesised argument text,
close brace) is modelled by deterministic left-to-right scanners; both
patterns are backtracking-free because the character classes exclude the
delimiters.  Caveats of the model, stated once here:
* the regex class of word characters is modelled as ASCII alphanumeric or
  underscore;
* `ast.literal_eval` (`parse_string_value`) is modelled for integer,
  boolean and `None` literals; float literals are kept as raw strings
  (no claim depends on floats);
* Python callables are modelled by their `__name__` plus a total
  application function supplied in an environment; external collaborators
  that are not part of the parser module (`loader.load_builtin_functions`,
  the host `eval` namespace) are opaque lookup tables in that environment,
  as the spec describes them;
* Python exceptions are the `Err` type; `Err.fuel` is not an exception
  but the marker that a fuel-bounded loop was cut off (used to reason
  about non-termination).
-/

namespace HttpRunnerParser

abbrev Chars := List Char

/-- ASCII model of the word-character regex class. -/
def isWordChar (c : Char) : Bool := c.isAlphanum || c == '_'

/-- The character class of the function-argument capture in
`function_regex_compile`: dollar, word characters, dot, hyphen, slash,
whitespace, equals sign and comma. -/
def isFuncArgChar (c : Char) : Bool :=
  c == '$' || isWordChar c || c == '.' || c == '-' || c == '/' ||
    c.isWhitespace || c == '=' || c == ','

/-- Python `str.strip()`: drop whitespace at both ends. -/
def strip (s : Chars) : Chars :=
  ((s.dropWhile Char.isWhitespace).reverse.dropWhile Char.isWhitespace).reverse

/-- The placeholder token (open brace, close brace) that
`LazyString.__parse` substitutes for each variable or function
occurrence. -/
def placeholderCs : Chars := ['\x7b', '\x7d']

/-- Model of `regex_findall_variables`: all matches of the variable pattern, left to
right, non-overlapping, returning the captured names. -/
def findVars : Chars → List Chars
  | [] => []
  | '$' :: rest =>
    let name := rest.takeWhile isWordChar
    if name.isEmpty then findVars rest
    else name :: findVars (rest.drop name.length)
  | _ :: rest => findVars rest
termination_by s => s.length
decreasing_by
  all_goals simp only [List.length_cons, List.length_drop]
  all_goals omega

/-- One attempted match of the function regex at the head of `cs`:
returns captured (name, argument text, total match length).  The total
match length is `name.length + args.length + 5` (the five delimiter
characters), hence always positive. -/
def tryFuncMatch (cs : Chars) : Option (Chars × Chars × Nat) :=
  match cs with
  | '$' :: '\x7b' :: rest =>
    let name := rest.takeWhile isWordChar
    if name.isEmpty then none
    else
      match rest.drop name.length with
      | '(' :: rest2 =>
        let args := rest2.takeWhile isFuncArgChar
        match rest2.drop args.length with
        | ')' :: '\x7d' :: _ => some (name, args, name.length + args.length + 5)
        | _ => none
      | _ => none
  | _ => none

/-- Model of `regex_findall_functions`: all matches of the function pattern, left to
right, non-overlapping, returning (name, argument text) pairs.  A match of
length `k ≥ 1` starting at the scan head consumes `k` characters, which we
express as dropping `k - 1` characters of the tail. -/
def findFuncs : Chars → List (Chars × Chars)
  | [] => []
  | c :: rest =>
    match tryFuncMatch (c :: rest) with
    | some (name, args, k) => (name, args) :: findFuncs (rest.drop (k - 1))
    | none => findFuncs rest
termination_by s => s.length
decreasing_by
  all_goals simp only [List.length_cons, List.length_drop]
  all_goals omega

/-- Python exceptions raised by the parser, plus the `fuel` marker used by
the model for a fuel-bounded loop that ran out (i.e. divergence). -/
inductive Err where
  | variableNotFound (name : Chars)
  | functionNotFound (name : Chars)
  | paramsError
  | valueError
  | indexError
  | attributeError
  | fuel
  deriving DecidableEq

/-- Python values handled by the parser.  `lazyStr` is the `LazyString`
class (`raw_string`, the working template `_string`, the offset-sorted
`_args` slots, and the `cached` flag); `lazyFn` is the `LazyFunction`
class (`_func.__name__` of the resolved callable, prepared `_args` and
`_kwargs`, and the mutable `cache_key`, which is a triple of the resolved
name and the `repr` strings of the evaluated args and kwargs).  A slot of
a `lazyStr` is either a `str` (a variable name, as in the Python code) or
a `lazyFn`. -/
inductive PyVal where
  | none
  | int (n : Int)
  | bool (b : Bool)
  | str (s : Chars)
  | list (xs : List PyVal)
  | dict (entries : List (PyVal × PyVal))
  | lazyStr (raw tmpl : Chars) (args : List PyVal) (cached : Bool)
  | lazyFn (fname : Chars) (args : List PyVal)
      (kwargs : List (Chars × PyVal)) (cacheKey : Option (Chars × Chars × Chars))

/-- Python `str.index(sub, start)` scanning helper: least absolute index
`i` with `i ≥` the running counter at which `sub` is a prefix. -/
def findSubAux (sub : Chars) : Chars → Nat → Option Nat
  | [], i => if sub.isPrefixOf ([] : Chars) then some i else Option.none
  | c :: rest, i =>
    if sub.isPrefixOf (c :: rest) then some i else findSubAux sub rest (i + 1)

/-- Python `str.index(sub, start)`: absolute index of the first occurrence
of `sub` at or after `start`, or `none` (Python raises `ValueError`). -/
def indexFrom (s sub : Chars) (start : Nat) : Option Nat :=
  findSubAux sub (s.drop start) start

/-- Python `str.replace(old, new, 1)`: replace the first occurrence only;
if `old` does not occur the string is returned unchanged. -/
def replaceFirst : Chars → Chars → Chars → Chars
  | [], _, _ => []
  | c :: rest, old, new =>
    if old.isPrefixOf (c :: rest) then new ++ (c :: rest).drop old.length
    else c :: replaceFirst rest old new

/-- Number of (non-overlapping) placeholder tokens in a template. -/
def countPH : Chars → Nat
  | [] => 0
  | '\x7b' :: '\x7d' :: rest => countPH rest + 1
  | _ :: rest => countPH rest

/-- Insert into the offset-keyed `args_mapping` dict, keeping the list
sorted by key; an existing entry at the same offset is overwritten (this
is Python dict assignment followed by `sorted(args_mapping.keys())`). -/
def insertSlot : List (Nat × PyVal) → Nat → PyVal → List (Nat × PyVal)
  | [], k, v => [(k, v)]
  | (k', v') :: rest, k, v =>
    if k = k' then (k, v) :: rest
    else if k < k' then (k, v) :: (k', v') :: rest
    else (k', v') :: insertSlot rest k v

/-- First-match association lookup with `Chars` keys (Python dict access
for the string-keyed mappings of the parser). -/
def lookupAssoc {α : Type} : List (Chars × α) → Chars → Option α
  | [], _ => Option.none
  | (k, v) :: rest, key => if k = key then some v else lookupAssoc rest key

/-- Key membership in a `Chars`-keyed association list. -/
def containsKey {α : Type} (l : List (Chars × α)) (key : Chars) : Bool :=
  (lookupAssoc l key).isSome

/-- Python dict assignment `d[k] = v`: overwrite in place or append. -/
def assocSet {α : Type} : List (Chars × α) → Chars → α → List (Chars × α)
  | [], k, v => [(k, v)]
  | (k', v') :: rest, k, v =>
    if k' = k then (k, v) :: rest else (k', v') :: assocSet rest k v

/-- Python `s.split(sep)` for a single-character separator. -/
def splitOnCharAux (sep : Char) : Chars → Chars → List Chars
  | [], acc => [acc.reverse]
  | c :: rest, acc =>
    if c = sep then acc.reverse :: splitOnCharAux sep rest []
    else splitOnCharAux sep rest (c :: acc)

def splitOnChar (sep : Char) (s : Chars) : List Chars := splitOnCharAux sep s []

/-- Numeric value of a digit string. -/
def natOfDigits (s : Chars) : Nat := s.foldl (fun a c => a * 10 + (c.toNat - 48)) 0

/-- An `ast.literal_eval`-acceptable integer literal: optional minus sign,
then digits with no redundant leading zero. -/
def parseIntLit (s : Chars) : Option Int :=
  let core : Chars → Option Int := fun d =>
    if d ≠ [] ∧ d.all Char.isDigit ∧ (d = ['0'] ∨ d.head? ≠ some '0') then
      some (natOfDigits d)
    else Option.none
  match s with
  | '-' :: rest => (core rest).map (fun n => -n)
  | _ => core s

/-- Model of `parse_string_value`: parse a string to a Python literal if possible
(`ast.literal_eval`), otherwise keep it as a raw string.  Quoted strings
cannot occur (the argument character class has no quote characters);
float literals are not modelled and stay raw strings. -/
def parse_string_value (s : Chars) : PyVal :=
  if s = "True".data then .bool true
  else if s = "False".data then .bool false
  else if s = "None".data then .none
  else
    match parseIntLit s with
    | some n => .int n
    | Option.none => .str s

/-- Result of `parse_function_params`: positional args and keyword args. -/
structure FuncMeta where
  args : List PyVal
  kwargs : List (Chars × PyVal)

/-- Loop body of `parse_function_params` over the comma-separated
fragments.  Python's `key, value = arg.split('=')` unpacking raises
`ValueError` when the fragment contains more than one equals sign. -/
def ppGo : List Chars → FuncMeta → Except Err FuncMeta
  | [], m => .ok m
  | a :: rest, m =>
    let arg := strip a
    if arg.contains '=' then
      match splitOnChar '=' arg with
      | [k, v] =>
        ppGo rest ⟨m.args, assocSet m.kwargs (strip k) (parse_string_value (strip v))⟩
      | _ => .error .valueError
    else ppGo rest ⟨m.args ++ [parse_string_value arg], m.kwargs⟩

/-- Model of `parse_function_params`: parse a function's raw argument text into
positional args and keyword args. -/
def parse_function_params (params : Chars) : Except Err FuncMeta :=
  let ps := strip params
  if ps = [] then .ok ⟨[], []⟩
  else ppGo (splitOnChar ',' ps) ⟨[], []⟩

/-- An entry of the host-language namespace as seen by the bare `eval`
fallback of `get_mapping_function`: either a callable (with its
`__name__`) or some non-callable value (e.g. the imported `os` module,
which the parser module itself imports). -/
inductive HostEntry where
  | callable (fname : Chars)
  | nonCallable
  deriving DecidableEq

/-- The function-resolution environment of the Preparer.  `user` is the
caller-supplied `functions_mapping`; `builtins` models the external
`loader.load_builtin_functions()` registry and `host` the host-language
namespace reachable by `eval` — both are collaborators outside the parser
module, which the spec describes as opaque lookup tables.  Each callable
is represented by its `__name__`. -/
structure PrepEnv where
  user : List (Chars × Chars)
  builtins : List (Chars × Chars)
  host : List (Chars × HostEntry)

/-- Model of `get_mapping_function`: resolve a function name.  `.ok (some f)` is a
resolved callable named `f`; `.ok none` models the Python function
falling off its end and implicitly returning `None` (which happens when
`eval` resolves the name to a non-callable and no exception is raised);
`.error` is a raised exception. -/
def get_mapping_function (fname : Chars) (env : PrepEnv) : Except Err (Option Chars) :=
  match lookupAssoc env.user fname with
  | some f => .ok (some f)
  | Option.none =>
    if fname = "parameterize".data ∨ fname = "P".data then
      .ok (some "load_csv_file".data)
    else if fname = "environ".data ∨ fname = "ENV".data then
      .ok (some "get_os_environ".data)
    else
      match lookupAssoc env.builtins fname with
      | some f => .ok (some f)
      | Option.none =>
        match lookupAssoc env.host fname with
        | some (.callable f) => .ok (some f)
        | some .nonCallable => .ok Option.none
        | Option.none => .error (.functionNotFound fname)

mutual

/-- Python `repr` of a value, as used for the function-result cache key.
`LazyString.__repr__` and `LazyFunction.__repr__` are as in the code. -/
def pyRepr : PyVal → Chars
  | .none => "None".data
  | .int n => (toString n).data
  | .bool true => "True".data
  | .bool false => "False".data
  | .str s => '\x27' :: (s ++ ['\x27'])
  | .list xs => '[' :: (pyReprList xs ++ [']'])
  | .dict es => '\x7b' :: (pyReprDict es ++ ['\x7d'])
  | .lazyStr raw _ _ _ => "LazyString(".data ++ raw ++ [')']
  | .lazyFn f _ _ _ => "LazyFunction(".data ++ f ++ [')']

def pyReprList : List PyVal → Chars
  | [] => []
  | [x] => pyRepr x
  | x :: y :: xs => pyRepr x ++ (',' :: ' ' :: pyReprList (y :: xs))

def pyReprDict : List (PyVal × PyVal) → Chars
  | [] => []
  | [(k, v)] => pyRepr k ++ (':' :: ' ' :: pyRepr v)
  | (k, v) :: e :: es =>
    pyRepr k ++ (':' :: ' ' :: pyRepr v) ++ (',' :: ' ' :: pyReprDict (e :: es))

end

/-- Python `repr` of a kwargs dict (string keys shown quoted). -/
def pyReprKw : List (Chars × PyVal) → Chars
  | [] => []
  | [(k, v)] => '\x27' :: (k ++ ('\x27' :: ':' :: ' ' :: pyRepr v))
  | (k, v) :: e :: es =>
    '\x27' :: (k ++ ('\x27' :: ':' :: ' ' :: pyRepr v)) ++ (',' :: ' ' :: pyReprKw (e :: es))

/-- Python `str()` of a value: a string is itself, everything else is its
`repr` (this is what `str.format` applies to each argument). -/
def pyStr : PyVal → Chars
  | .str s => s
  | x => pyRepr x

/-- Python `template.format(*args)` with auto-numbered empty fields.
A doubled open or close brace is an escaped literal brace; an empty field
consumes the next argument (converted with `str()`), raising `IndexError`
when the arguments run out; any other field use raises an error (the
model folds Python's `ValueError`/`KeyError` cases for stray braces and
named or numbered fields into `valueError`, which matches the templates
reachable in this module: placeholders are always empty fields). -/
def formatArgs : Chars → List PyVal → Except Err Chars
  | [], _ => .ok []
  | '\x7b' :: '\x7b' :: rest, args => (formatArgs rest args).map ('\x7b' :: ·)
  | '\x7b' :: '\x7d' :: rest, a :: args => (formatArgs rest args).map (pyStr a ++ ·)
  | '\x7b' :: '\x7d' :: _, [] => .error .indexError
  | '\x7b' :: _, _ => .error .valueError
  | '\x7d' :: '\x7d' :: rest, args => (formatArgs rest args).map ('\x7d' :: ·)
  | '\x7d' :: _, _ => .error .valueError
  | c :: rest, args => (formatArgs rest args).map (c :: ·)

/-- A function-result cache key: the resolved callable's `__name__` and
the `repr` strings of the evaluated positional and keyword arguments. -/
abbrev CKey := Chars × Chars × Chars

/-- The module-level `cached_functions_mapping` dict. -/
abbrev Cache := List (CKey × PyVal)

def lookupCache : Cache → CKey → Option PyVal
  | [], _ => Option.none
  | (k, v) :: rest, key => if k = key then some v else lookupCache rest key

def insertCache : Cache → CKey → PyVal → Cache
  | [], key, v => [(key, v)]
  | (k, w) :: rest, key, v =>
    if k = key then (key, v) :: rest else (k, w) :: insertCache rest key v

/-- A concrete variables mapping (name to value). -/
abbrev VarMap := List (Chars × PyVal)

/-- The evaluation environment: total application of a resolved callable
(identified by its `__name__`) to evaluated args and kwargs. -/
structure EvalEnv where
  apply : Chars → List PyVal → List (Chars × PyVal) → PyVal

/-- Model of `get_mapping_variable`: dict lookup raising `VariableNotFound` on a
missing key. -/
def get_mapping_variable (name : Chars) (vars : VarMap) : Except Err PyVal :=
  match lookupAssoc vars name with
  | some v => .ok v
  | Option.none => .error (.variableNotFound name)

mutual

/-- Model of `parse_lazy_data`: evaluate a prepared structure against a concrete
variables mapping, threading the module-level function-result cache.
A `LazyFunction` standing alone (outside a `LazyString`) falls through to
the final `return content`, as in the code. -/
def parse_lazy_data : Nat → PyVal → EvalEnv → VarMap → Cache → Except Err (PyVal × Cache)
  | 0, _, _, _, _ => .error .fuel
  | fuel + 1, content, env, vars, cache =>
    match content with
    | .lazyStr raw tmpl slots cached =>
      match lazyStrToValue fuel raw tmpl slots cached env vars cache with
      | .error e => .error e
      | .ok (v, _, cache') => .ok (v, cache')
    | .list xs =>
      match parseListP fuel xs env vars cache with
      | .error e => .error e
      | .ok (vs, cache') => .ok (.list vs, cache')
    | .dict es =>
      match parseDictP fuel es env vars cache with
      | .error e => .error e
      | .ok (ds, cache') => .ok (.dict ds, cache')
    | x => .ok (x, cache)

def parseListP : Nat → List PyVal → EvalEnv → VarMap → Cache → Except Err (List PyVal × Cache)
  | 0, _, _, _, _ => .error .fuel
  | _ + 1, [], _, _, cache => .ok ([], cache)
  | fuel + 1, x :: xs, env, vars, cache =>
    match parse_lazy_data fuel x env vars cache with
    | .error e => .error e
    | .ok (v, cache') =>
      match parseListP fuel xs env vars cache' with
      | .error e => .error e
      | .ok (vs, cache'') => .ok (v :: vs, cache'')

def parseDictP : Nat → List (PyVal × PyVal) → EvalEnv → VarMap → Cache →
    Except Err (List (PyVal × PyVal) × Cache)
  | 0, _, _, _, _ => .error .fuel
  | _ + 1, [], _, _, cache => .ok ([], cache)
  | fuel + 1, (k, v) :: es, env, vars, cache =>
    match parse_lazy_data fuel k env vars cache with
    | .error e => .error e
    | .ok (k', cache1) =>
      match parse_lazy_data fuel v env vars cache1 with
      | .error e => .error e
      | .ok (v', cache2) =>
        match parseDictP fuel es env vars cache2 with
        | .error e => .error e
        | .ok (es', cache3) => .ok ((k', v') :: es', cache3)

def parseKwP : Nat → List (Chars × PyVal) → EvalEnv → VarMap → Cache →
    Except Err (List (Chars × PyVal) × Cache)
  | 0, _, _, _, _ => .error .fuel
  | _ + 1, [], _, _, cache => .ok ([], cache)
  | fuel + 1, (k, v) :: es, env, vars, cache =>
    match parse_lazy_data fuel v env vars cache with
    | .error e => .error e
    | .ok (v', cache1) =>
      match parseKwP fuel es env vars cache1 with
      | .error e => .error e
      | .ok (es', cache2) => .ok ((k, v') :: es', cache2)

/-- Model of `LazyFunction.to_value`: evaluate args and kwargs, compute and assign
the new `cache_key`, then invoke the callable.  Returns the value, the
newly assigned cache key, and the cache as updated by evaluating the
arguments. -/
def lazyFnToValue : Nat → Chars → List PyVal → List (Chars × PyVal) →
    EvalEnv → VarMap → Cache → Except Err (PyVal × CKey × Cache)
  | 0, _, _, _, _, _, _ => .error .fuel
  | fuel + 1, f, args, kwargs, env, vars, cache =>
    match parseListP fuel args env vars cache with
    | .error e => .error e
    | .ok (argVals, cache1) =>
      match parseKwP fuel kwargs env vars cache1 with
      | .error e => .error e
      | .ok (kwVals, cache2) =>
        let key : CKey :=
          (f, '[' :: (pyReprList argVals ++ [']']),
            '\x7b' :: (pyReprKw kwVals ++ ['\x7d']))
        .ok (env.apply f argVals kwVals, key, cache2)

/-- The uncached path of a `LazyFunction` arg slot in
`LazyString.to_value`: call `to_value` (which assigns the new cache key)
and then unconditionally store the result in the module-level cache under
that key.  Returns the value, the updated slot, and the updated cache. -/
def evalFnSlot (fuel : Nat) (f : Chars) (args : List PyVal)
    (kwargs : List (Chars × PyVal)) (env : EvalEnv) (vars : VarMap)
    (cache : Cache) : Except Err (PyVal × PyVal × Cache) :=
  match lazyFnToValue fuel f args kwargs env vars cache with
  | .error e => .error e
  | .ok (v, key, cache') =>
    .ok (v, .lazyFn f args kwargs (some key), insertCache cache' key v)

/-- Processing of one arg slot in `LazyString.to_value`: a cache hit is
taken only when the enclosing `LazyString` is `cached`, the slot already
has a (truthy) `cache_key` and the key is present; otherwise the function
is evaluated and its result stored.  A variable slot is looked up in the
variables mapping.  (A slot that is neither is impossible for slots built
by `LazyString.__parse`; Python would raise `KeyError`, surfaced as
`VariableNotFound`, from `get_mapping_variable`.) -/
def processOneArg : Nat → Bool → PyVal → EvalEnv → VarMap → Cache →
    Except Err (PyVal × PyVal × Cache)
  | 0, _, _, _, _, _ => .error .fuel
  | fuel + 1, cached, slot, env, vars, cache =>
    match slot with
    | .lazyFn f args kwargs ck =>
      match ck with
      | some k =>
        if cached && (lookupCache cache k).isSome then
          .ok ((lookupCache cache k).getD .none, .lazyFn f args kwargs (some k), cache)
        else evalFnSlot fuel f args kwargs env vars cache
      | Option.none => evalFnSlot fuel f args kwargs env vars cache
    | .str name =>
      match get_mapping_variable name vars with
      | .error e => .error e
      | .ok v => .ok (v, .str name, cache)
    | other => .error (.variableNotFound (pyRepr other))

def processArgs : Nat → Bool → List PyVal → EvalEnv → VarMap → Cache →
    Except Err (List PyVal × List PyVal × Cache)
  | 0, _, _, _, _, _ => .error .fuel
  | _ + 1, _, [], _, _, cache => .ok ([], [], cache)
  | fuel + 1, cached, slot :: rest, env, vars, cache =>
    match processOneArg fuel cached slot env vars cache with
    | .error e => .error e
    | .ok (v, slot', cache') =>
      match processArgs fuel cached rest env vars cache' with
      | .error e => .error e
      | .ok (vs, slots', cache'') => .ok (v :: vs, slot' :: slots', cache'')

/-- Model of `LazyString.to_value`: materialize every arg slot, then either return
the single argument natively (template is exactly the placeholder) or
substitute all placeholders with `str.format`.  Returns the value, the
updated slots (their `cache_key`s may have been reassigned), and the
updated cache. -/
def lazyStrToValue : Nat → Chars → Chars → List PyVal → Bool →
    EvalEnv → VarMap → Cache → Except Err (PyVal × List PyVal × Cache)
  | 0, _, _, _, _, _, _, _ => .error .fuel
  | fuel + 1, _raw, tmpl, slots, cached, env, vars, cache =>
    match processArgs fuel cached slots env vars cache with
    | .error e => .error e
    | .ok (vs, slots', cache') =>
      if tmpl = placeholderCs then
        match vs with
        | v :: _ => .ok (v, slots', cache')
        | [] => .error .indexError
      else
        match formatArgs tmpl vs with
        | .error e => .error e
        | .ok s => .ok (.str s, slots', cache')

end

mutual

/-- Model of `extract_variables`: recursively collect all variable names referenced
in a value; for a `LazyString` the `raw_string` is scanned with the
variable regex (hence names buried in function arguments are included).
Python returns a set; only membership is used, so a list models it. -/
def extract_variables : PyVal → List Chars
  | .list xs => extractVarsList xs
  | .dict es => extractVarsDict es
  | .lazyStr raw _ _ _ => findVars raw
  | _ => []

def extractVarsList : List PyVal → List Chars
  | [] => []
  | x :: xs => extract_variables x ++ extractVarsList xs

def extractVarsDict : List (PyVal × PyVal) → List Chars
  | [] => []
  | (_, v) :: es => extract_variables v ++ extractVarsDict es

end

/-- The variable loop of `LazyString.__parse`: for each name found in the
(function-free) working copy, first check membership in
`check_variables_set` (raising `VariableNotFound` otherwise), then locate
the occurrence in the *original* raw string starting from the previous
found position (Python `str.index`, which does *not* advance past the
previous match), replace the first occurrence in the working copy with
the placeholder, and record the offset.  State: remaining names, working
copy, running position, offset-keyed slot mapping. -/
def varPhase (raw : Chars) (V : List Chars) :
    List Chars → Chars → Nat → List (Nat × PyVal) →
    Except Err (Chars × List (Nat × PyVal))
  | [], working, _, mapping => .ok (working, mapping)
  | name :: rest, working, pos, mapping =>
    if name ∈ V then
      match indexFrom raw ('$' :: name) pos with
      | some i =>
        varPhase raw V rest (replaceFirst working ('$' :: name) placeholderCs) i
          (insertSlot mapping i (.str name))
      | Option.none => .error .valueError
    else .error (.variableNotFound name)

mutual

/-- Model of `prepare_lazy_data`: recursively convert every string containing a
variable or function occurrence into a `LazyString` (strings without
templates, scalars and already-lazy values are returned unchanged; lists,
sets and tuples become lists; dict keys and values are both prepared). -/
def prepare_lazy_data : Nat → PyVal → PrepEnv → List Chars → Bool → Except Err PyVal
  | 0, _, _, _, _ => .error .fuel
  | fuel + 1, content, env, V, cached =>
    match content with
    | .list xs =>
      match prepList fuel xs env V cached with
      | .error e => .error e
      | .ok vs => .ok (.list vs)
    | .dict es =>
      match prepDict fuel es env V cached with
      | .error e => .error e
      | .ok ds => .ok (.dict ds)
    | .str s =>
      if findVars s = [] ∧ findFuncs s = [] then .ok (.str s)
      else lazyStringParse fuel (strip s) env V cached
    | x => .ok x

def prepList : Nat → List PyVal → PrepEnv → List Chars → Bool → Except Err (List PyVal)
  | 0, _, _, _, _ => .error .fuel
  | _ + 1, [], _, _, _ => .ok []
  | fuel + 1, x :: xs, env, V, cached =>
    match prepare_lazy_data fuel x env V cached with
    | .error e => .error e
    | .ok v =>
      match prepList fuel xs env V cached with
      | .error e => .error e
      | .ok vs => .ok (v :: vs)

def prepDict : Nat → List (PyVal × PyVal) → PrepEnv → List Chars → Bool →
    Except Err (List (PyVal × PyVal))
  | 0, _, _, _, _ => .error .fuel
  | _ + 1, [], _, _, _ => .ok []
  | fuel + 1, (k, v) :: es, env, V, cached =>
    match prepare_lazy_data fuel k env V cached with
    | .error e => .error e
    | .ok k' =>
      match prepare_lazy_data fuel v env V cached with
      | .error e => .error e
      | .ok v' =>
        match prepDict fuel es env V cached with
        | .error e => .error e
        | .ok es' => .ok ((k', v') :: es')

/-- Keyword arguments of a `LazyFunction` are prepared like a dict whose
keys are plain identifier strings (never templated), so only the values
are prepared. -/
def prepKw : Nat → List (Chars × PyVal) → PrepEnv → List Chars →
    Except Err (List (Chars × PyVal))
  | 0, _, _, _ => .error .fuel
  | _ + 1, [], _, _ => .ok []
  | fuel + 1, (k, v) :: es, env, V =>
    match prepare_lazy_data fuel v env V false with
    | .error e => .error e
    | .ok v' =>
      match prepKw fuel es env V with
      | .error e => .error e
      | .ok es' => .ok ((k, v') :: es')

/-- Model of `LazyFunction.__init__` and `LazyFunction.__parse`: parse the argument
text, resolve the callable (raising `FunctionNotFound` if nothing
resolves, or `AttributeError` via `self._func.__name__` when
`get_mapping_function` silently returned `None`), prepare args and
kwargs against the same known-variables set, then enforce the one-arg
rule for the reserved built-ins.  `cache_key` is initialized to `None`. -/
def mkLazyFunction : Nat → Chars → Chars → PrepEnv → List Chars → Except Err PyVal
  | 0, _, _, _, _ => .error .fuel
  | fuel + 1, fname, argsText, env, V =>
    match parse_function_params argsText with
    | .error e => .error e
    | .ok meta =>
      match get_mapping_function fname env with
      | .error e => .error e
      | .ok Option.none => .error .attributeError
      | .ok (some f) =>
        match prepList fuel meta.args env V false with
        | .error e => .error e
        | .ok args =>
          match prepKw fuel meta.kwargs env V with
          | .error e => .error e
          | .ok kwargs =>
            if f = "load_csv_file".data then
              if args.length = 1 ∧ kwargs.isEmpty then
                .ok (.lazyFn f args kwargs Option.none)
              else .error .paramsError
            else if f = "get_os_environ".data then
              if args.length = 1 ∧ kwargs.isEmpty then
                .ok (.lazyFn f args kwargs Option.none)
              else .error .paramsError
            else .ok (.lazyFn f args kwargs Option.none)

/-- The function loop of `LazyString.__parse`: for each function match
(computed up front on the raw string), rebuild the matched text, locate
it in the raw string from the previous found position, build the
`LazyFunction`, replace the first occurrence in the working copy with the
placeholder and record the offset. -/
def funcPhase : Nat → Chars → PrepEnv → List Chars → List (Chars × Chars) →
    Chars → Nat → List (Nat × PyVal) → Except Err (Chars × List (Nat × PyVal))
  | 0, _, _, _, _, _, _, _ => .error .fuel
  | _ + 1, _, _, _, [], working, _, mapping => .ok (working, mapping)
  | fuel + 1, raw, env, V, (fname, fargs) :: rest, working, pos, mapping =>
    let funcStr : Chars := '$' :: '\x7b' :: (fname ++ '(' :: (fargs ++ [')', '\x7d']))
    match indexFrom raw funcStr pos with
    | Option.none => .error .valueError
    | some i =>
      match mkLazyFunction fuel fname fargs env V with
      | .error e => .error e
      | .ok lf =>
        funcPhase fuel raw env V rest (replaceFirst working funcStr placeholderCs) i
          (insertSlot mapping i lf)

/-- Model of `LazyString.__init__` and `LazyString.__parse` on an (already
stripped) raw string: scan and reify functions first, then variables on
the function-free working copy; the offset-sorted slot values become
`_args`. -/
def lazyStringParse : Nat → Chars → PrepEnv → List Chars → Bool → Except Err PyVal
  | 0, _, _, _, _ => .error .fuel
  | fuel + 1, raw, env, V, cached =>
    match funcPhase fuel raw env V (findFuncs raw) raw 0 [] with
    | .error e => .error e
    | .ok (working, mapping) =>
      match varPhase raw V (findVars working) working 0 mapping with
      | .error e => .error e
      | .ok (working2, mapping2) =>
        .ok (.lazyStr raw working2 (mapping2.map Prod.snd) cached)

end

/-- Python dict lookup by a string key over arbitrary dict entries: a
non-string key never equals a string key. -/
def lookupStr : List (PyVal × PyVal) → Chars → Option PyVal
  | [], _ => Option.none
  | (.str s, v) :: rest, k => if s = k then some v else lookupStr rest k
  | _ :: rest, k => lookupStr rest k

/-- The normalized validator dict, with the insertion order of the code:
check, expect, comparator. -/
def mkValidatorDict (check expect comparator : PyVal) : PyVal :=
  .dict [(.str "check".data, check), (.str "expect".data, expect),
    (.str "comparator".data, comparator)]

/-- Model of `validator.get("comparator", "eq")`. -/
def comparatorOf (es : List (PyVal × PyVal)) : PyVal :=
  (lookupStr es "comparator".data).getD (.str "eq".data)

/-- Model of `parse_validator`: normalize the legacy format (a dict with a
`check` key and more than one key, taking `expect` or `expected` and
defaulting `comparator` to `eq`) and the compact format (a single-key
dict whose sole key is the comparator and whose value is a two-element
list); everything else raises `ParamsError`. -/
def parse_validator (v : PyVal) : Except Err PyVal :=
  match v with
  | .dict es =>
    if (lookupStr es "check".data).isSome ∧ 1 < es.length then
      match lookupStr es "check".data with
      | some check =>
        match lookupStr es "expect".data with
        | some e => .ok (mkValidatorDict check e (comparatorOf es))
        | Option.none =>
          match lookupStr es "expected".data with
          | some e => .ok (mkValidatorDict check e (comparatorOf es))
          | Option.none => .error .paramsError
      | Option.none => .error .paramsError
    else if es.length = 1 then
      match es with
      | [(comparator, .list [check, expect])] =>
        .ok (mkValidatorDict check expect comparator)
      | _ => .error .paramsError
    else .error .paramsError
  | _ => .error .paramsError

/-- One full `for var_name in variables_mapping` pass of
`parse_variables_mapping`: skip already-parsed names; a name occurring in
its own extracted variables is a self-reference (kept unchanged under
`ignore`, otherwise `VariableNotFound`); a name with unparsed
dependencies is skipped; otherwise the value is evaluated against the
parsed-so-far mapping and appended. -/
def onePass (fuel : Nat) (env : EvalEnv) (ignore : Bool) :
    List (Chars × PyVal) → List (Chars × PyVal) → Cache →
    Except Err (List (Chars × PyVal) × Cache)
  | [], parsed, cache => .ok (parsed, cache)
  | (n, v) :: rest, parsed, cache =>
    if containsKey parsed n then onePass fuel env ignore rest parsed cache
    else if n ∈ extract_variables v then
      if ignore then onePass fuel env ignore rest (parsed ++ [(n, v)]) cache
      else .error (.variableNotFound n)
    else if (extract_variables v).any (fun d => !containsKey parsed d) then
      onePass fuel env ignore rest parsed cache
    else
      match parse_lazy_data fuel v env parsed cache with
      | .error e => .error e
      | .ok (pv, cache') => onePass fuel env ignore rest (parsed ++ [(n, pv)]) cache'

/-- The `while len(parsed_variables_mapping) != len(variables_mapping)`
loop of `parse_variables_mapping`.  The Python loop has no progress
check, so it can run forever; the model bounds it with fuel and returns
`Err.fuel` when the bound is hit. -/
def pvmLoop (env : EvalEnv) (ignore : Bool) (m : List (Chars × PyVal)) :
    Nat → List (Chars × PyVal) → Cache →
    Except Err (List (Chars × PyVal) × Cache)
  | 0, _, _ => .error .fuel
  | fuel + 1, parsed, cache =>
    if parsed.length = m.length then .ok (parsed, cache)
    else
      match onePass fuel env ignore m parsed cache with
      | .error e => .error e
      | .ok (parsed', cache') => pvmLoop env ignore m fuel parsed' cache'

/-- Model of `parse_variables_mapping(variables_mapping, ignore)`. -/
def parse_variables_mapping (fuel : Nat) (m : List (Chars × PyVal))
    (ignore : Bool) (env : EvalEnv) (cache : Cache) :
    Except Err (List (Chars × PyVal) × Cache) :=
  pvmLoop env ignore m fuel [] cache

/-- A template in which every brace occurs as part of a complete
placeholder token: no escaped or stray braces.  Templates produced from
raw strings without brace characters have this shape. -/
def noStrayBraces : Chars → Bool
  | [] => true
  | '\x7b' :: '\x7d' :: rest => noStrayBraces rest
  | '\x7b' :: _ => false
  | '\x7d' :: _ => false
  | _ :: rest => noStrayBraces rest

/-- Written from the spec's words (Evaluator step 2): "substitute each
placeholder with the string representation of its argument and return the
resulting string" — the i-th placeholder is replaced by the i-th string,
all other characters are copied. -/
def specSubstitute : Chars → List Chars → Chars
  | [], _ => []
  | '\x7b' :: '\x7d' :: rest, s :: ss => s ++ specSubstitute rest ss
  | '\x7b' :: '\x7d' :: rest, [] => '\x7b' :: '\x7d' :: specSubstitute rest []
  | c :: rest, ss => c :: specSubstitute rest ss

/-- Modelled from the spec (section 4.C, lookup order of the Function
Registry), amended per the code to record the two fallback outcomes of
the host-namespace step: a name that resolves to a callable nowhere and
does not exist in the host namespace fails with `FunctionNotFound`, but a
name the host namespace resolves to a non-callable value makes the
function silently return `None` (`.ok none`). -/
def gmfSpecAmended (fname : Chars) (env : PrepEnv) : Except Err (Option Chars) :=
  if (lookupAssoc env.user fname).isSome then .ok (lookupAssoc env.user fname)
  else if fname = "parameterize".data ∨ fname = "P".data then
    .ok (some "load_csv_file".data)
  else if fname = "environ".data ∨ fname = "ENV".data then
    .ok (some "get_os_environ".data)
  else if (lookupAssoc env.builtins fname).isSome then .ok (lookupAssoc env.builtins fname)
  else
    match lookupAssoc env.host fname with
    | some (.callable f) => .ok (some f)
    | some .nonCallable => .ok Option.none
    | Option.none => .error (.functionNotFound fname)

/-- Two slot values that agree on every field except possibly a
`LazyFunction`'s `cache_key`. -/
def sameUpToCacheKey : PyVal → PyVal → Prop
  | .lazyFn f a k _, .lazyFn f' a' k' _ => f = f' ∧ a = a' ∧ k = k'
  | x, y => x = y

/-- The keys of a variables mapping are pairwise distinct (always true of
a Python dict). -/
def keysNodup (m : List (Chars × PyVal)) : Prop := (m.map Prod.fst).Nodup

/-- An environment with no user functions, no framework built-ins and an
empty host namespace. -/
def emptyPrepEnv : PrepEnv := ⟨[], [], []⟩

/-- An evaluation environment whose callables all return the integer 7. -/
def constEvalEnv : EvalEnv := ⟨fun _ _ _ => .int 7⟩

/-! ## Theorems -/

/-- C2: the claim says `parse_variables_mapping` terminates on every
mapping and, when no further entry can be resolved, returns the partial
map.  The code's `while` loop has no progress check, so on the mapping
`a ↦ LazyString("$b")` (where `b` is not a key of the mapping) one full
pass resolves nothing and the loop never exits: for every fuel bound the
model reports fuel exhaustion, i.e. the Python code loops forever instead
of returning the partial map. -/
theorem c2_theorem :
    (∀ (env : EvalEnv) (fuel : Nat) (cache : Cache),
      onePass fuel env false
        [("a".data, .lazyStr "$b".data placeholderCs [.str "b".data] false)] [] cache =
        .ok ([], cache)) ∧
    (∀ (env : EvalEnv) (fuel : Nat) (cache : Cache),
      parse_variables_mapping fuel
        [("a".data, .lazyStr "$b".data placeholderCs [.str "b".data] false)]
        false env cache = .error .fuel) := by
  have hpass : ∀ (env : EvalEnv) (fuel : Nat) (cache : Cache),
      onePass fuel env false
        [("a".data, .lazyStr "$b".data placeholderCs [.str "b".data] false)] [] cache =
        .ok ([], cache) := by
    intro env fuel cache
    simp +decide [onePass, extract_variables, findVars, containsKey, lookupAssoc]
  refine ⟨hpass, ?_⟩
  intro env fuel cache
  induction fuel generalizing cache with
  | zero => rfl
  | succ n ih =>
    unfold parse_variables_mapping pvmLoop
    rw [hpass env n cache]
    simpa [parse_variables_mapping] using ih cache

/-- C3: the claim says the placeholder count of a prepared `LazyString`
always equals the number of arg slots, slots in document order, including
repeated occurrences of the same reference.  On the raw string
`"$a $a"` the offset bookkeeping of `LazyString.__parse` (Python
`str.index(var, match_start_position)`, which restarts at the previous
found index instead of past it) maps both occurrences to offset 0, so the
template has two placeholders but only one arg slot, and evaluating the
string raises `IndexError` from `str.format`. -/
theorem c3_theorem :
    lazyStringParse 10 "$a $a".data emptyPrepEnv ["a".data] false =
      .ok (.lazyStr "$a $a".data "\x7b\x7d \x7b\x7d".data [.str "a".data] false) ∧
    countPH "\x7b\x7d \x7b\x7d".data = 2 ∧
    [PyVal.str "a".data].length = 1 ∧
    lazyStrToValue 10 "$a $a".data "\x7b\x7d \x7b\x7d".data [.str "a".data] false
      constEvalEnv [("a".data, .int 1)] [] = .error .indexError := by
  refine ⟨?_, by decide, by decide, ?_⟩
  · simp +decide [lazyStringParse, funcPhase, varPhase, findVars, findFuncs, tryFuncMatch,
      indexFrom, findSubAux, replaceFirst, insertSlot, placeholderCs, emptyPrepEnv]
  · simp +decide [lazyStrToValue, processArgs, processOneArg, get_mapping_variable,
      lookupAssoc, formatArgs, placeholderCs, Except.map, pyStr, pyRepr]

/-- C8: amended claim — `get_mapping_function` tries, in order, the
user mapping, the reserved names `parameterize`/`P` and `environ`/`ENV`,
the framework built-in registry, and the host-language namespace; a name
that resolves nowhere and is absent from the host namespace raises
`FunctionNotFound`, but a name the host namespace resolves to a
non-callable value makes the function silently return `None` instead of
raising. -/
theorem c8_theorem (fname : Chars) (env : PrepEnv) :
    get_mapping_function fname env = gmfSpecAmended fname env := by
  unfold get_mapping_function gmfSpecAmended
  cases hu : lookupAssoc env.user fname with
  | some f => simp [hu]
  | none =>
    cases hb : lookupAssoc env.builtins fname with
    | some f => simp [hu, hb]
    | none => simp [hu, hb]

/-- C8 counterexample: the parser module itself does `import os`, so the
host namespace resolves the word `os` to a non-callable module object;
`get_mapping_function("os", {})` then falls off the end of the function
and silently returns `None` instead of raising `FunctionNotFound` —
contradicting the claim that every unresolvable name fails with
`FunctionNotFound` and that nothing is ever silently returned. -/
theorem c8_counterexample :
    get_mapping_function "os".data ⟨[], [], [("os".data, .nonCallable)]⟩ = .ok Option.none ∧
    get_mapping_function "os".data ⟨[], [], [("os".data, .nonCallable)]⟩ ≠
      .error (.functionNotFound "os".data) := by
  constructor
  · simp +decide [get_mapping_function, lookupAssoc]
  · simp +decide [get_mapping_function, lookupAssoc]

theorem lookupCache_insertCache (cache : Cache) (k : CKey) (v : PyVal) :
    lookupCache (insertCache cache k v) k = some v := by
  induction cache with
  | nil => simp [insertCache, lookupCache]
  | cons p rest ih =>
    obtain ⟨k', w⟩ := p
    by_cases h : k' = k
    · simp [insertCache, lookupCache, h]
    · simp [insertCache, lookupCache, h, ih]

theorem processOneArg_same {fuel : Nat} {cached : Bool} {slot : PyVal} {env : EvalEnv}
    {vars : VarMap} {cache : Cache} {v slot' : PyVal} {cache' : Cache}
    (h : processOneArg fuel cached slot env vars cache = .ok (v, slot', cache')) :
    sameUpToCacheKey slot slot' := by
  match fuel with
  | 0 => simp [processOneArg] at h
  | fuel + 1 =>
    unfold processOneArg at h
    split at h
    · -- slot is a LazyFunction
      rename_i f args kwargs ck
      have heval : ∀ c0, evalFnSlot fuel f args kwargs env vars c0 = .ok (v, slot', cache') →
          sameUpToCacheKey (.lazyFn f args kwargs ck) slot' := by
        intro c0 h'
        unfold evalFnSlot at h'
        cases hlf : lazyFnToValue fuel f args kwargs env vars c0 with
        | error e => rw [hlf] at h'; simp at h'
        | ok t =>
          obtain ⟨v0, key, cache0⟩ := t
          rw [hlf] at h'
          simp only [Except.ok.injEq, Prod.mk.injEq] at h'
          obtain ⟨-, h2, -⟩ := h'
          rw [← h2]
          exact ⟨rfl, rfl, rfl⟩
      split at h
      · rename_i k
        split at h
        · simp only [Except.ok.injEq, Prod.mk.injEq] at h
          obtain ⟨-, h2, -⟩ := h
          rw [← h2]
          exact ⟨rfl, rfl, rfl⟩
        · exact heval cache h
      · exact heval cache h
    · -- slot is a variable name
      rename_i name
      split at h
      · simp at h
      · simp only [Except.ok.injEq, Prod.mk.injEq] at h
        obtain ⟨-, h2, -⟩ := h
        rw [← h2]
        rfl
    · simp at h

/-- C9: amended claim — lazy values are immutable after construction
*except* for `LazyFunction.cache_key`, which `to_value` reassigns on
every evaluation: processing the arg slots of a `LazyString` preserves
every slot up to its `cache_key` field (variable slots are returned
unchanged; a function slot keeps its resolved callable, args and kwargs),
and hence so does `LazyString.to_value`; the `LazyString`'s own fields
(`raw_string`, template, `cached`) are never assigned after
construction. -/
theorem c9_theorem :
    (∀ (fuel : Nat) (cached : Bool) (slots : List PyVal) (env : EvalEnv) (vars : VarMap)
      (cache : Cache) (vs slots' : List PyVal) (cache' : Cache),
      processArgs fuel cached slots env vars cache = .ok (vs, slots', cache') →
      List.Forall₂ sameUpToCacheKey slots slots') ∧
    (∀ (fuel : Nat) (raw tmpl : Chars) (slots : List PyVal) (cached : Bool) (env : EvalEnv)
      (vars : VarMap) (cache : Cache) (v : PyVal) (slots' : List PyVal) (cache' : Cache),
      lazyStrToValue fuel raw tmpl slots cached env vars cache = .ok (v, slots', cache') →
      List.Forall₂ sameUpToCacheKey slots slots') := by
  have hmain : ∀ (fuel : Nat) (cached : Bool) (slots : List PyVal) (env : EvalEnv)
      (vars : VarMap) (cache : Cache) (vs slots' : List PyVal) (cache' : Cache),
      processArgs fuel cached slots env vars cache = .ok (vs, slots', cache') →
      List.Forall₂ sameUpToCacheKey slots slots' := by
    intro fuel
    induction fuel with
    | zero => intro _ _ _ _ _ _ _ _ h; simp [processArgs] at h
    | succ n ih =>
      intro cached slots env vars cache vs slots' cache' h
      match slots with
      | [] =>
        unfold processArgs at h
        simp only [Except.ok.injEq, Prod.mk.injEq] at h
        obtain ⟨-, h2, -⟩ := h
        rw [← h2]
        exact .nil
      | slot :: rest =>
        unfold processArgs at h
        cases h1 : processOneArg n cached slot env vars cache with
        | error e => rw [h1] at h; simp at h
        | ok t =>
          obtain ⟨v1, slot1, cache1⟩ := t
          rw [h1] at h
          dsimp only at h
          cases h2 : processArgs n cached rest env vars cache1 with
          | error e => rw [h2] at h; simp at h
          | ok t2 =>
            obtain ⟨vs2, slots2, cache2⟩ := t2
            rw [h2] at h
            simp only [Except.ok.injEq, Prod.mk.injEq] at h
            obtain ⟨-, h3, -⟩ := h
            rw [← h3]
            exact .cons (processOneArg_same h1) (ih cached rest env vars cache1 vs2 slots2 cache2 h2)
  refine ⟨hmain, ?_⟩
  intro fuel raw tmpl slots cached env vars cache v slots' cache' h
  match fuel with
  | 0 => simp [lazyStrToValue] at h
  | n + 1 =>
    unfold lazyStrToValue at h
    cases h1 : processArgs n cached slots env vars cache with
    | error e => rw [h1] at h; simp at h
    | ok t =>
      obtain ⟨vs1, slots1, cache1⟩ := t
      rw [h1] at h
      dsimp only at h
      have hs : slots' = slots1 := by
        split at h
        · match vs1, h with
          | v1 :: _, h =>
            simp only [Except.ok.injEq, Prod.mk.injEq] at h
            exact h.2.1.symm
          | [], h => simp at h
        · cases hf : formatArgs tmpl vs1 with
          | error e => rw [hf] at h; simp at h
          | ok s =>
            rw [hf] at h
            simp only [Except.ok.injEq, Prod.mk.injEq] at h
            exact h.2.1.symm
      rw [hs]
      exact hmain n cached slots env vars cache vs1 slots1 cache1 h1

/-- C9 counterexample: a freshly constructed `LazyFunction` has
`cache_key = None`; evaluating it through `LazyString.to_value` returns
the slot with `cache_key` assigned to the computed key, so the slot after
evaluation differs from the slot before — `to_value` does modify a field
of the `LazyFunction`, contradicting the claim that no field of a lazy
value is modified by evaluation. -/
theorem c9_counterexample :
    processOneArg 10 false (.lazyFn "f".data [] [] Option.none) constEvalEnv [] [] =
      .ok (.int 7, .lazyFn "f".data [] [] (some ("f".data, "[]".data, ['\x7b', '\x7d'])),
        [(("f".data, "[]".data, ['\x7b', '\x7d']), .int 7)]) ∧
    PyVal.lazyFn "f".data [] [] (some ("f".data, "[]".data, ['\x7b', '\x7d'])) ≠
      PyVal.lazyFn "f".data [] [] Option.none := by
  constructor
  · simp +decide [processOneArg, evalFnSlot, lazyFnToValue, parseListP, parseKwP,
      pyReprList, pyReprKw, insertCache, constEvalEnv]
  · simp

/-- C9 witness: a concrete evaluation of a variable slot together with a
function slot, whose processed slots agree with the originals up to the
`cache_key` field. -/
theorem c9_witness :
    List.Forall₂ sameUpToCacheKey
      [PyVal.str "x".data, PyVal.lazyFn "f".data [] [] Option.none]
      [PyVal.str "x".data,
        PyVal.lazyFn "f".data [] [] (some ("f".data, "[]".data, ['\x7b', '\x7d']))] :=
  c9_theorem.1 11 false [PyVal.str "x".data, PyVal.lazyFn "f".data [] [] Option.none]
    constEvalEnv [("x".data, .int 1)] []
    [.int 1, .int 7]
    [PyVal.str "x".data,
      PyVal.lazyFn "f".data [] [] (some ("f".data, "[]".data, ['\x7b', '\x7d']))]
    [(("f".data, "[]".data, ['\x7b', '\x7d']), .int 7)]
    (by simp +decide [processArgs, processOneArg, evalFnSlot, lazyFnToValue, parseListP,
      parseKwP, pyReprList, pyReprKw, insertCache, constEvalEnv, get_mapping_variable,
      lookupAssoc])

/-- C10: each time a `LazyFunction` arg slot is actually evaluated inside
`LazyString.to_value`, the result is written to the module-level cache
under the newly assigned cache key — with `cached = False`
unconditionally (even overwriting an existing entry, which is never
consulted), and with `cached = True` whenever there is no usable cache
entry; only when `cached = True`, the slot has a (truthy) cache key and
the key is present is the cache consulted, and then nothing is written
and the callable is not invoked. -/
theorem c10_theorem :
    (∀ (fuel : Nat) (f : Chars) (args : List PyVal) (kwargs : List (Chars × PyVal))
      (ck : Option CKey) (env : EvalEnv) (vars : VarMap) (cache : Cache)
      (v : PyVal) (key : CKey) (cache' : Cache),
      lazyFnToValue fuel f args kwargs env vars cache = .ok (v, key, cache') →
      processOneArg (fuel + 1) false (.lazyFn f args kwargs ck) env vars cache =
        .ok (v, .lazyFn f args kwargs (some key), insertCache cache' key v) ∧
      lookupCache (insertCache cache' key v) key = some v) ∧
    (∀ (fuel : Nat) (f : Chars) (args : List PyVal) (kwargs : List (Chars × PyVal))
      (ck : Option CKey) (env : EvalEnv) (vars : VarMap) (cache : Cache)
      (v : PyVal) (key : CKey) (cache' : Cache),
      lazyFnToValue fuel f args kwargs env vars cache = .ok (v, key, cache') →
      (∀ k, ck = some k → lookupCache cache k = Option.none) →
      processOneArg (fuel + 1) true (.lazyFn f args kwargs ck) env vars cache =
        .ok (v, .lazyFn f args kwargs (some key), insertCache cache' key v)) ∧
    (∀ (fuel : Nat) (f : Chars) (args : List PyVal) (kwargs : List (Chars × PyVal))
      (k : CKey) (env : EvalEnv) (vars : VarMap) (cache : Cache) (w : PyVal),
      lookupCache cache k = some w →
      processOneArg (fuel + 1) true (.lazyFn f args kwargs (some k)) env vars cache =
        .ok (w, .lazyFn f args kwargs (some k), cache)) := by
  refine ⟨?_, ?_, ?_⟩
  · intro fuel f args kwargs ck env vars cache v key cache' hlf
    constructor
    · unfold processOneArg evalFnSlot
      cases ck <;> simp [hlf]
    · exact lookupCache_insertCache cache' key v
  · intro fuel f args kwargs ck env vars cache v key cache' hlf hmiss
    unfold processOneArg evalFnSlot
    cases ck with
    | none => simp [hlf]
    | some k => simp [hmiss k rfl, hlf]
  · intro fuel f args kwargs k env vars cache w hk
    unfold processOneArg
    simp [hk]

/-- C10 witness: with `cached = False` and a stale cache entry already
present under the same key with a different value, the slot is evaluated
anyway and the entry is overwritten with the fresh result. -/
theorem c10_witness :
    processOneArg 11 false
      (.lazyFn "f".data [] [] (some ("f".data, "[]".data, ['\x7b', '\x7d'])))
      constEvalEnv [] [(("f".data, "[]".data, ['\x7b', '\x7d']), .int 0)] =
      .ok (.int 7, .lazyFn "f".data [] [] (some ("f".data, "[]".data, ['\x7b', '\x7d'])),
        [(("f".data, "[]".data, ['\x7b', '\x7d']), .int 7)]) :=
  ((c10_theorem.1 10 "f".data [] [] (some ("f".data, "[]".data, ['\x7b', '\x7d']))
    constEvalEnv [] [(("f".data, "[]".data, ['\x7b', '\x7d']), .int 0)]
    (.int 7) ("f".data, "[]".data, ['\x7b', '\x7d'])
    [(("f".data, "[]".data, ['\x7b', '\x7d']), .int 0)]
    (by simp +decide [lazyFnToValue, parseListP, parseKwP, pyReprList, pyReprKw,
      constEvalEnv])).1).trans
    (by simp +decide [insertCache])

/-- C6: `parse_validator` normalizes exactly two shapes to
`(check, expect, comparator)`: a legacy dict with a `check` key plus at
least one other key (expected value from `expect`, else `expected`, else
`ParamsError`; comparator defaulting to `eq`), and a compact single-entry
dict whose sole key is the comparator mapped to a two-element list
`[check, expect]`.  Everything else — a non-dict, a legacy dict lacking
`expect`/`expected`, a single-entry dict whose value is not a two-element
list, an empty dict — raises `ParamsError`. -/
theorem c6_theorem :
    (∀ (es : List (PyVal × PyVal)) (check e : PyVal),
      lookupStr es "check".data = some check → 1 < es.length →
      lookupStr es "expect".data = some e →
      parse_validator (.dict es) = .ok (mkValidatorDict check e (comparatorOf es))) ∧
    (∀ (es : List (PyVal × PyVal)) (check e : PyVal),
      lookupStr es "check".data = some check → 1 < es.length →
      lookupStr es "expect".data = Option.none →
      lookupStr es "expected".data = some e →
      parse_validator (.dict es) = .ok (mkValidatorDict check e (comparatorOf es))) ∧
    (∀ (es : List (PyVal × PyVal)) (check : PyVal),
      lookupStr es "check".data = some check → 1 < es.length →
      lookupStr es "expect".data = Option.none →
      lookupStr es "expected".data = Option.none →
      parse_validator (.dict es) = .error .paramsError) ∧
    (∀ (comparator check e : PyVal),
      parse_validator (.dict [(comparator, .list [check, e])]) =
        .ok (mkValidatorDict check e comparator)) ∧
    (∀ (k v : PyVal), (∀ c e, v ≠ .list [c, e]) →
      parse_validator (.dict [(k, v)]) = .error .paramsError) ∧
    (parse_validator (.dict []) = .error .paramsError) ∧
    (∀ (v : PyVal), (∀ es, v ≠ .dict es) → parse_validator v = .error .paramsError) := by
  refine ⟨?_, ?_, ?_, ?_, ?_, by rfl, ?_⟩
  · intro es check e h1 h2 h3
    simp [parse_validator, h1, h2, h3]
  · intro es check e h1 h2 h3 h4
    simp [parse_validator, h1, h2, h3, h4]
  · intro es check h1 h2 h3 h4
    simp [parse_validator, h1, h2, h3, h4]
  · intro comparator check e
    simp [parse_validator]
  · intro k v hv
    have hlen : ¬((lookupStr [(k, v)] "check".data).isSome ∧
        1 < ([(k, v)] : List (PyVal × PyVal)).length) := by simp
    unfold parse_validator
    dsimp only
    rw [if_neg hlen, if_pos (by simp)]
    match v, hv with
    | .list [c, e], hv => exact absurd rfl (hv c e)
    | .list [], _ => rfl
    | .list [c], _ => rfl
    | .list (c :: e :: x :: xs), _ => rfl
    | .none, _ => rfl
    | .int n, _ => rfl
    | .bool b, _ => rfl
    | .str s, _ => rfl
    | .dict es, _ => rfl
    | .lazyStr a b c d, _ => rfl
    | .lazyFn a b c d, _ => rfl
  · intro v hv
    match v, hv with
    | .dict es, hv => exact absurd rfl (hv es)
    | .none, _ => rfl
    | .int n, _ => rfl
    | .bool b, _ => rfl
    | .str s, _ => rfl
    | .list xs, _ => rfl
    | .lazyStr a b c d, _ => rfl
    | .lazyFn a b c d, _ => rfl

/-- C6 witness: the two accepted shapes and one rejected shape of the
spec's scenario S3, evaluated concretely. -/
theorem c6_witness :
    parse_validator (.dict [(.str "check".data, .str "status_code".data),
        (.str "comparator".data, .str "eq".data), (.str "expect".data, .int 201)]) =
      .ok (mkValidatorDict (.str "status_code".data) (.int 201) (.str "eq".data)) ∧
    parse_validator (.dict [(.str "eq".data,
        .list [.str "status_code".data, .int 201])]) =
      .ok (mkValidatorDict (.str "status_code".data) (.int 201) (.str "eq".data)) ∧
    parse_validator (.dict [(.str "eq".data, .list [.str "status_code".data])]) =
      .error .paramsError := by
  refine ⟨?_, ?_, ?_⟩
  · have h := c6_theorem.1
      [(.str "check".data, .str "status_code".data),
        (.str "comparator".data, .str "eq".data), (.str "expect".data, .int 201)]
      (.str "status_code".data) (.int 201)
      (by simp +decide [lookupStr]) (by simp) (by simp +decide [lookupStr])
    simpa +decide [comparatorOf, lookupStr] using h
  · exact c6_theorem.2.2.2.1 (.str "eq".data) (.str "status_code".data) (.int 201)
  · exact c6_theorem.2.2.2.2.1 (.str "eq".data) (.list [.str "status_code".data])
      (by intro c e h; simp at h)

/-- C7: `parse_validator` is idempotent — every successful result is a
`(check, expect, comparator)` dict, and re-normalizing that dict through
the legacy branch reproduces it exactly. -/
theorem c7_theorem (v r : PyVal) (h : parse_validator v = .ok r) :
    parse_validator r = .ok r := by
  obtain ⟨c, e, comp, rfl⟩ : ∃ c e comp, r = mkValidatorDict c e comp := by
    unfold parse_validator at h
    split at h
    · split at h
      · split at h
        · split at h
          · exact ⟨_, _, _, (Except.ok.inj h).symm⟩
          · split at h
            · exact ⟨_, _, _, (Except.ok.inj h).symm⟩
            · simp at h
        · simp at h
      · split at h
        · split at h
          · exact ⟨_, _, _, (Except.ok.inj h).symm⟩
          · simp at h
        · simp at h
    · simp at h
  simp +decide [parse_validator, mkValidatorDict, lookupStr, comparatorOf]

/-- C7 witness: idempotence at a concrete compact validator. -/
theorem c7_witness :
    parse_validator (mkValidatorDict (.str "status_code".data) (.int 201) (.str "eq".data)) =
      .ok (mkValidatorDict (.str "status_code".data) (.int 201) (.str "eq".data)) :=
  c7_theorem (.dict [(.str "eq".data, .list [.str "status_code".data, .int 201])])
    (mkValidatorDict (.str "status_code".data) (.int 201) (.str "eq".data))
    (by simp +decide [parse_validator, lookupStr, mkValidatorDict])

theorem formatArgs_spec (tmpl : Chars) (args : List PyVal)
    (hnb : noStrayBraces tmpl = true) (hc : countPH tmpl = args.length) :
    formatArgs tmpl args = .ok (specSubstitute tmpl (args.map pyStr)) := by
  induction tmpl, args using formatArgs.induct with
  | case1 args => simp [formatArgs, specSubstitute]
  | case2 rest args ih =>
    simp [noStrayBraces] at hnb
  | case3 rest a args ih =>
    simp only [noStrayBraces] at hnb
    simp only [countPH, List.length_cons, Nat.add_right_cancel_iff] at hc
    simp [formatArgs, specSubstitute, ih hnb hc, Except.map]
  | case4 rest =>
    simp [countPH] at hc
  | case5 x args h1 h2 h3 =>
    match x with
    | [] => simp [noStrayBraces] at hnb
    | c :: t =>
      by_cases hb : c = '\x7b'
      · subst hb; exact absurd rfl (h1 t)
      · by_cases hd : c = '\x7d'
        · subst hd
          cases args with
          | nil => exact absurd rfl (h3 t rfl)
          | cons a as => exact absurd rfl (h2 t a as rfl)
        · simp_all [noStrayBraces]
  | case6 rest args ih =>
    simp [noStrayBraces] at hnb
  | case7 x args h1 =>
    simp_all [noStrayBraces]
  | case8 c rest args h1 h2 h3 ih =>
    simp_all [noStrayBraces, countPH, formatArgs, specSubstitute, Except.map]

/-- C4: amended claim — when the template is exactly one placeholder,
`to_value` returns the single materialized argument with its native type
preserved; when the template has surrounding literal text or several
placeholders, `to_value` returns the string obtained by substituting the
string representation of each argument for its placeholder, *provided*
the literal text contains no brace characters (the code's documented
placeholder-collision limitation: a raw brace corrupts `str.format`) and
the placeholder count does not exceed the argument count. -/
theorem c4_theorem :
    (∀ (fuel : Nat) (raw : Chars) (slots : List PyVal) (cached : Bool) (env : EvalEnv)
      (vars : VarMap) (cache : Cache) (v : PyVal) (vs slots' : List PyVal) (cache' : Cache),
      processArgs fuel cached slots env vars cache = .ok (v :: vs, slots', cache') →
      lazyStrToValue (fuel + 1) raw placeholderCs slots cached env vars cache =
        .ok (v, slots', cache')) ∧
    (∀ (fuel : Nat) (raw tmpl : Chars) (slots : List PyVal) (cached : Bool) (env : EvalEnv)
      (vars : VarMap) (cache : Cache) (vs slots' : List PyVal) (cache' : Cache),
      processArgs fuel cached slots env vars cache = .ok (vs, slots', cache') →
      tmpl ≠ placeholderCs → noStrayBraces tmpl = true → countPH tmpl = vs.length →
      lazyStrToValue (fuel + 1) raw tmpl slots cached env vars cache =
        .ok (.str (specSubstitute tmpl (vs.map pyStr)), slots', cache')) := by
  constructor
  · intro fuel raw slots cached env vars cache v vs slots' cache' h
    unfold lazyStrToValue
    rw [h]
    dsimp only
    rw [if_pos rfl]
  · intro fuel raw tmpl slots cached env vars cache vs slots' cache' h htm hnb hcnt
    unfold lazyStrToValue
    rw [h]
    dsimp only
    rw [if_neg htm, formatArgs_spec tmpl vs hnb hcnt]

/-- C4 counterexample: the raw string made of an open brace followed by
the variable reference `$x` prepares to the template open-brace, open-brace,
close-brace — surrounding literal text plus one placeholder — but
evaluating it raises `ValueError` from `str.format` (the leading brace is
parsed as a format escape and leaves a lone close brace) instead of
returning a string, contradicting the claim's unconditional second
half. -/
theorem c4_counterexample :
    prepare_lazy_data 10 (.str "\x7b$x".data) emptyPrepEnv ["x".data] false =
      .ok (.lazyStr "\x7b$x".data ['\x7b', '\x7b', '\x7d'] [.str "x".data] false) ∧
    lazyStrToValue 10 "\x7b$x".data ['\x7b', '\x7b', '\x7d'] [.str "x".data] false
      constEvalEnv [("x".data, .int 1)] [] = .error .valueError := by
  constructor
  · simp +decide [prepare_lazy_data, lazyStringParse, funcPhase, varPhase, findVars,
      findFuncs, tryFuncMatch, strip, indexFrom, findSubAux, replaceFirst, insertSlot,
      placeholderCs, emptyPrepEnv]
  · simp +decide [lazyStrToValue, processArgs, processOneArg, get_mapping_variable,
      lookupAssoc, formatArgs, placeholderCs, Except.map]

/-- C4 witness: a bare `$x` template returns the integer 42 natively, and
a `v=$x` template returns the string `v=42`. -/
theorem c4_witness :
    lazyStrToValue 11 "$x".data placeholderCs [.str "x".data] false constEvalEnv
      [("x".data, .int 42)] [] = .ok (.int 42, [.str "x".data], []) ∧
    lazyStrToValue 11 "v=$x".data ('v' :: '=' :: placeholderCs) [.str "x".data] false
      constEvalEnv [("x".data, .int 42)] [] =
      .ok (.str "v=42".data, [.str "x".data], []) := by
  constructor
  · exact c4_theorem.1 10 "$x".data [.str "x".data] false constEvalEnv
      [("x".data, .int 42)] [] (.int 42) [] [.str "x".data] []
      (by simp +decide [processArgs, processOneArg, get_mapping_variable, lookupAssoc])
  · have h := c4_theorem.2 10 "v=$x".data ('v' :: '=' :: placeholderCs) [.str "x".data]
      false constEvalEnv [("x".data, .int 42)] [] [.int 42] [.str "x".data] []
      (by simp +decide [processArgs, processOneArg, get_mapping_variable, lookupAssoc])
      (by decide) (by decide) (by decide)
    simpa +decide [specSubstitute, pyStr, pyRepr, placeholderCs] using h

theorem varPhase_undef (raw : Chars) (V : List Chars) :
    ∀ (names : List Chars) (working : Chars) (pos : Nat) (mapping : List (Nat × PyVal)),
      (∃ n ∈ names, n ∉ V) →
      ∃ e, varPhase raw V names working pos mapping = .error e ∧
        (e = .valueError ∨ ∃ m, m ∉ V ∧ e = .variableNotFound m) := by
  intro names
  induction names with
  | nil =>
    intro _ _ _ h
    obtain ⟨n, hn, -⟩ := h
    simp at hn
  | cons name rest ih =>
    intro working pos mapping h
    by_cases hv : name ∈ V
    · have hrest : ∃ n ∈ rest, n ∉ V := by
        obtain ⟨n, hn, hnV⟩ := h
        rcases List.mem_cons.mp hn with rfl | hmem
        · exact absurd hv hnV
        · exact ⟨n, hmem, hnV⟩
      unfold varPhase
      rw [if_pos hv]
      cases hidx : indexFrom raw ('$' :: name) pos with
      | none => exact ⟨.valueError, rfl, Or.inl rfl⟩
      | some i =>
        exact ih (replaceFirst working ('$' :: name) placeholderCs) i
          (insertSlot mapping i (.str name)) hrest
    · refine ⟨.variableNotFound name, ?_, Or.inr ⟨name, hv, rfl⟩⟩
      unfold varPhase
      rw [if_neg hv]

/-- C1: amended claim — preparation is strict and fails before any
evaluation on a string with an undefined variable reference, but the
error is `VariableNotFound` only when scanning actually reaches the
reference.  Concretely: (a) an undefined reference nested in the argument
of a function call whose name does resolve raises `VariableNotFound`
naming it; (b) any error raised while reifying the function calls (e.g.
`FunctionNotFound` for an unknown function name, as in the
counterexample, or `ParamsError` for a reserved built-in arity violation)
propagates out of preparation instead; (c) when the function phase
completes, an undefined reference left in the working copy makes
preparation fail, with `VariableNotFound` naming an undefined variable
(or, for degenerate scan-position arrangements, the position
bookkeeping's `ValueError` first); (d) a string containing any template
occurrence is handed to `LazyString` parsing after stripping. -/
theorem c1_theorem :
    (∀ (fuel : Nat) (fname x : Chars) (env : PrepEnv) (V : List Chars) (f : Chars),
      get_mapping_function fname env = .ok (some f) →
      parse_function_params ('$' :: x) = .ok ⟨[.str ('$' :: x)], []⟩ →
      strip ('$' :: x) = '$' :: x →
      findVars ('$' :: x) = [x] →
      findFuncs ('$' :: x) = [] →
      x ∉ V →
      mkLazyFunction (fuel + 5) fname ('$' :: x) env V = .error (.variableNotFound x)) ∧
    (∀ (fuel : Nat) (raw : Chars) (env : PrepEnv) (V : List Chars) (cached : Bool) (e : Err),
      funcPhase fuel raw env V (findFuncs raw) raw 0 [] = .error e →
      lazyStringParse (fuel + 1) raw env V cached = .error e) ∧
    (∀ (fuel : Nat) (raw : Chars) (env : PrepEnv) (V : List Chars) (cached : Bool)
      (working : Chars) (mapping : List (Nat × PyVal)),
      funcPhase fuel raw env V (findFuncs raw) raw 0 [] = .ok (working, mapping) →
      (∃ n ∈ findVars working, n ∉ V) →
      ∃ e, lazyStringParse (fuel + 1) raw env V cached = .error e ∧
        (e = .valueError ∨ ∃ m, m ∉ V ∧ e = .variableNotFound m)) ∧
    (∀ (fuel : Nat) (s : Chars) (env : PrepEnv) (V : List Chars) (cached : Bool),
      ¬(findVars s = [] ∧ findFuncs s = []) →
      prepare_lazy_data (fuel + 1) (.str s) env V cached =
        lazyStringParse fuel (strip s) env V cached) := by
  have hlift : ∀ (fuel : Nat) (s : Chars) (env : PrepEnv) (V : List Chars) (cached : Bool),
      ¬(findVars s = [] ∧ findFuncs s = []) →
      prepare_lazy_data (fuel + 1) (.str s) env V cached =
        lazyStringParse fuel (strip s) env V cached := by
    intro fuel s env V cached h
    unfold prepare_lazy_data
    dsimp only
    rw [if_neg h]
  refine ⟨?_, ?_, ?_, hlift⟩
  · intro fuel fname x env V f hgmf hpp hstrip hfv hff hxV
    have hfp : funcPhase (fuel + 1) ('$' :: x) env V [] ('$' :: x) 0 [] =
        .ok ('$' :: x, []) := by
      unfold funcPhase
      rfl
    have hlsp : lazyStringParse (fuel + 2) ('$' :: x) env V false =
        .error (.variableNotFound x) := by
      rw [show fuel + 2 = (fuel + 1) + 1 from rfl]
      unfold lazyStringParse
      rw [hff, hfp]
      dsimp only
      rw [hfv]
      unfold varPhase
      rw [if_neg hxV]
    have hprep : prepare_lazy_data (fuel + 3) (.str ('$' :: x)) env V false =
        .error (.variableNotFound x) := by
      rw [show fuel + 3 = (fuel + 2) + 1 from rfl,
        hlift (fuel + 2) ('$' :: x) env V false (by simp [hfv]), hstrip, hlsp]
    have hpl : prepList (fuel + 4) [.str ('$' :: x)] env V false =
        .error (.variableNotFound x) := by
      rw [show fuel + 4 = (fuel + 3) + 1 from rfl]
      unfold prepList
      rw [hprep]
    rw [show fuel + 5 = (fuel + 4) + 1 from rfl]
    unfold mkLazyFunction
    rw [hpp]
    dsimp only
    rw [hgmf]
    dsimp only
    rw [hpl]
  · intro fuel raw env V cached e hfp
    rw [show fuel + 1 = fuel + 1 from rfl]
    unfold lazyStringParse
    rw [hfp]
  · intro fuel raw env V cached working mapping hfp hex
    obtain ⟨e, he, hor⟩ :=
      varPhase_undef raw V (findVars working) working 0 mapping hex
    refine ⟨e, ?_, hor⟩
    unfold lazyStringParse
    rw [hfp]
    dsimp only
    rw [he]

/-- C1 counterexample: the string contains the undefined variable
reference `$x` nested in the arguments of `${nofunc(...)}`; because the
function name is resolved before the arguments are prepared,
`prepare_lazy_data` raises `FunctionNotFound("nofunc")`, not
`VariableNotFound`, contradicting the claim as stated. -/
theorem c1_counterexample :
    prepare_lazy_data 10 (.str "$\x7bnofunc($x)\x7d".data) emptyPrepEnv [] false =
      .error (.functionNotFound "nofunc".data) ∧
    Err.functionNotFound "nofunc".data ≠ Err.variableNotFound "x".data := by
  constructor
  · simp +decide [prepare_lazy_data, lazyStringParse, funcPhase, varPhase, findVars,
      findFuncs, tryFuncMatch, strip, indexFrom, findSubAux, replaceFirst, insertSlot,
      mkLazyFunction, parse_function_params, ppGo, splitOnChar, splitOnCharAux,
      parse_string_value, parseIntLit, get_mapping_function, lookupAssoc, assocSet,
      emptyPrepEnv]
  · simp

/-- C1 witness: the nested case — preparing the argument `$x` of a
resolvable function `add` with `x` undeclared raises
`VariableNotFound("x")` — and the top-level case on the raw string
`$x`. -/
theorem c1_witness :
    mkLazyFunction 7 "add".data ('$' :: "x".data) ⟨[("add".data, "add".data)], [], []⟩ [] =
      .error (.variableNotFound "x".data) ∧
    (∃ e, lazyStringParse 3 "$x".data emptyPrepEnv [] false = .error e ∧
      (e = .valueError ∨ ∃ m, m ∉ ([] : List Chars) ∧ e = .variableNotFound m)) := by
  constructor
  · exact c1_theorem.1 2 "add".data "x".data ⟨[("add".data, "add".data)], [], []⟩ [] "add".data
      (by simp +decide [get_mapping_function, lookupAssoc])
      (by simp +decide [parse_function_params, ppGo, splitOnChar, splitOnCharAux, strip,
        parse_string_value, parseIntLit, assocSet])
      (by decide) (by simp +decide [findVars]) (by simp +decide [findFuncs, tryFuncMatch])
      (by simp)
  · exact c1_theorem.2.2.1 2 "$x".data emptyPrepEnv [] false "$x".data []
      (by simp +decide [funcPhase, findFuncs, tryFuncMatch])
      (by simp +decide [findVars])

theorem containsKey_iff {α : Type} (l : List (Chars × α)) (k : Chars) :
    containsKey l k = true ↔ k ∈ l.map Prod.fst := by
  induction l with
  | nil => simp [containsKey, lookupAssoc]
  | cons p rest ih =>
    obtain ⟨k', v'⟩ := p
    simp only [containsKey, lookupAssoc, List.map_cons, List.mem_cons]
    by_cases h : k' = k
    · subst h
      rw [if_pos rfl]
      exact ⟨fun _ => Or.inl rfl, fun _ => rfl⟩
    · rw [if_neg h, ← containsKey, ih]
      constructor
      · exact fun hm => Or.inr hm
      · intro hm
        rcases hm with rfl | hm
        · exact absurd rfl h
        · exact hm

theorem mem_containsKey {α : Type} {l : List (Chars × α)} {k : Chars} {x : α}
    (h : (k, x) ∈ l) : containsKey l k = true := by
  rw [containsKey_iff]
  exact List.mem_map.mpr ⟨(k, x), h, rfl⟩

theorem containsKey_append {α : Type} (l1 l2 : List (Chars × α)) (k : Chars) :
    containsKey (l1 ++ l2) k = (containsKey l1 k || containsKey l2 k) := by
  induction l1 with
  | nil => simp [containsKey, lookupAssoc]
  | cons p rest ih =>
    obtain ⟨k', v'⟩ := p
    by_cases h : k' = k
    · simp [containsKey, lookupAssoc, h]
    · simpa [containsKey, lookupAssoc, h] using ih

theorem keysNodup_unique {m : List (Chars × PyVal)} {a : Chars} {b c : PyVal}
    (hnd : keysNodup m) (hb : (a, b) ∈ m) (hc : (a, c) ∈ m) : b = c := by
  induction m with
  | nil => simp at hb
  | cons p rest ih =>
    obtain ⟨k, w⟩ := p
    have hnd' : keysNodup rest := (List.nodup_cons.mp hnd).2
    have hk : k ∉ rest.map Prod.fst := (List.nodup_cons.mp hnd).1
    rcases List.mem_cons.mp hb with hb1 | hb2 <;> rcases List.mem_cons.mp hc with hc1 | hc2
    · rw [Prod.mk.injEq] at hb1 hc1
      rw [hb1.2, hc1.2]
    · exfalso
      rw [Prod.mk.injEq] at hb1
      exact hk (hb1.1 ▸ List.mem_map.mpr ⟨(a, c), hc2, rfl⟩)
    · exfalso
      rw [Prod.mk.injEq] at hc1
      exact hk (hc1.1 ▸ List.mem_map.mpr ⟨(a, b), hb2, rfl⟩)
    · exact ih hnd' hb2 hc2

theorem lookupAssoc_of_forall {l : List (Chars × PyVal)} {k : Chars} {v : PyVal}
    (hmem : k ∈ l.map Prod.fst) (hall : ∀ x, (k, x) ∈ l → x = v) :
    lookupAssoc l k = some v := by
  induction l with
  | nil => simp at hmem
  | cons p rest ih =>
    obtain ⟨k', w⟩ := p
    by_cases h : k' = k
    · subst h
      rw [hall w (List.mem_cons_self _ _)]
      simp [lookupAssoc]
    · simp only [lookupAssoc, if_neg h]
      refine ih ?_ (fun x hx => hall x (List.mem_cons_of_mem _ hx))
      simp only [List.map_cons, List.mem_cons] at hmem
      rcases hmem with rfl | hmem
      · exact absurd rfl h
      · exact hmem

theorem keys_full (ks1 ks2 : List Chars) (h1 : ks1.Nodup) (h2 : ks2.Nodup)
    (hsub : ∀ a ∈ ks1, a ∈ ks2) (hlen : ks2.length ≤ ks1.length) :
    ∀ a ∈ ks2, a ∈ ks1 := by
  have hfs : ks1.toFinset ⊆ ks2.toFinset := by
    intro a ha
    rw [List.mem_toFinset] at ha ⊢
    exact hsub a ha
  have hcard : ks2.toFinset.card ≤ ks1.toFinset.card := by
    rw [List.toFinset_card_of_nodup h1, List.toFinset_card_of_nodup h2]
    exact hlen
  have heq := Finset.eq_of_subset_of_card_le hfs hcard
  intro a ha
  rw [← List.mem_toFinset, ← heq, List.mem_toFinset] at ha
  exact ha

theorem onePass_selfref_error (fuel : Nat) (env : EvalEnv) (n : Chars) (v : PyVal) :
    ∀ (m parsed : List (Chars × PyVal)) (cache : Cache),
      keysNodup m → (n, v) ∈ m → n ∈ extract_variables v → containsKey parsed n = false →
      ∃ e, onePass fuel env false m parsed cache = .error e := by
  intro m
  induction m with
  | nil =>
    intro parsed cache _ hmem _ _
    simp at hmem
  | cons p rest ih =>
    obtain ⟨k, w⟩ := p
    intro parsed cache hnd hmem hself hnp
    have hndrest : keysNodup rest := (List.nodup_cons.mp hnd).2
    have hknotin : k ∉ rest.map Prod.fst := (List.nodup_cons.mp hnd).1
    unfold onePass
    rcases List.mem_cons.mp hmem with heq | hmem'
    · obtain ⟨h1, h2⟩ := Prod.ext_iff.mp heq
      dsimp only at h1 h2
      subst h1
      subst h2
      rw [if_neg (by simp [hnp]), if_pos hself]
      exact ⟨.variableNotFound n, by simp⟩
    · by_cases hk1 : containsKey parsed k = true
      · rw [if_pos hk1]
        exact ih parsed cache hndrest hmem' hself hnp
      · rw [if_neg hk1]
        by_cases hk2 : k ∈ extract_variables w
        · rw [if_pos hk2]
          exact ⟨.variableNotFound k, by simp⟩
        · rw [if_neg hk2]
          by_cases hk3 : (extract_variables w).any (fun d => !containsKey parsed d) = true
          · rw [if_pos hk3]
            exact ih parsed cache hndrest hmem' hself hnp
          · rw [if_neg hk3]
            cases hpld : parse_lazy_data fuel w env parsed cache with
            | error e =>
              exact ⟨e, rfl⟩
            | ok t =>
              obtain ⟨pv, cache1⟩ := t
              dsimp only
              refine ih (parsed ++ [(k, pv)]) cache1 hndrest hmem' hself ?_
              have hkn : k ≠ n := by
                intro hkeq
                exact hknotin (hkeq ▸ List.mem_map.mpr ⟨(n, v), hmem', rfl⟩)
              rw [containsKey_append, hnp]
              have h2 : containsKey [(k, pv)] n = false := by
                simp only [containsKey, lookupAssoc]
                rw [if_neg hkn]
                rfl
              rw [h2]
              rfl

/-- The invariant maintained by `parse_variables_mapping` with
`ignore = true` over a mapping containing the self-referencing entry
`(n, v)`: the parsed map has distinct keys drawn from the input mapping's
keys, and any entry it holds for `n` is the original value `v`. -/
def SelfRefInv (m : List (Chars × PyVal)) (n : Chars) (v : PyVal)
    (parsed : List (Chars × PyVal)) : Prop :=
  (parsed.map Prod.fst).Nodup ∧
  (∀ k, containsKey parsed k = true → containsKey m k = true) ∧
  (∀ x, (n, x) ∈ parsed → x = v)

theorem selfRefInv_append {m : List (Chars × PyVal)} {n : Chars} {v : PyVal}
    {parsed : List (Chars × PyVal)} (k : Chars) (x : PyVal)
    (hinv : SelfRefInv m n v parsed) (hk1 : ¬containsKey parsed k = true)
    (hkm : containsKey m k = true) (hx : k = n → x = v) :
    SelfRefInv m n v (parsed ++ [(k, x)]) := by
  obtain ⟨hn1, hn2, hn3⟩ := hinv
  refine ⟨?_, ?_, ?_⟩
  · rw [List.map_append]
    simp only [List.map_cons, List.map_nil]
    refine List.Nodup.append hn1 (List.nodup_singleton k) ?_
    intro a ha hb
    simp only [List.mem_singleton] at hb
    subst hb
    exact hk1 ((containsKey_iff parsed a).mpr ha)
  · intro a ha
    rw [containsKey_append] at ha
    rcases Bool.or_eq_true_iff.mp ha with ha1 | ha2
    · exact hn2 a ha1
    · have haek : a = k := by
        by_contra hak
        simp only [containsKey, lookupAssoc] at ha2
        rw [if_neg (fun h => hak h.symm)] at ha2
        simp at ha2
      subst haek
      exact hkm
  · intro y hy
    rcases List.mem_append.mp hy with hy1 | hy2
    · exact hn3 y hy1
    · simp only [List.mem_singleton, Prod.mk.injEq] at hy2
      obtain ⟨hnk, hyx⟩ := hy2
      subst hyx
      exact hx hnk.symm

theorem onePass_inv (fuel : Nat) (env : EvalEnv) (m : List (Chars × PyVal)) (n : Chars)
    (v : PyVal) (hnd : keysNodup m) (hmem : (n, v) ∈ m) (hself : n ∈ extract_variables v) :
    ∀ (msub parsed : List (Chars × PyVal)) (cache : Cache) (parsed' : List (Chars × PyVal))
      (cache' : Cache),
      (∀ p ∈ msub, p ∈ m) → SelfRefInv m n v parsed →
      onePass fuel env true msub parsed cache = .ok (parsed', cache') →
      SelfRefInv m n v parsed' := by
  intro msub
  induction msub with
  | nil =>
    intro parsed cache parsed' cache' _ hinv h
    unfold onePass at h
    injection h with h2
    injection h2 with h3 h4
    subst h3
    exact hinv
  | cons p rest ih =>
    obtain ⟨k, w⟩ := p
    intro parsed cache parsed' cache' hsub hinv h
    have hsubrest : ∀ p ∈ rest, p ∈ m := fun p hp => hsub p (List.mem_cons_of_mem _ hp)
    have hkm : (k, w) ∈ m := hsub (k, w) (List.mem_cons_self _ _)
    unfold onePass at h
    by_cases hk1 : containsKey parsed k = true
    · rw [if_pos hk1] at h
      exact ih parsed cache parsed' cache' hsubrest hinv h
    · rw [if_neg hk1] at h
      by_cases hk2 : k ∈ extract_variables w
      · rw [if_pos hk2] at h
        simp only [if_true] at h
        refine ih (parsed ++ [(k, w)]) cache parsed' cache' hsubrest ?_ h
        refine selfRefInv_append k w hinv hk1 (mem_containsKey hkm) ?_
        intro hkn
        subst hkn
        exact keysNodup_unique hnd hkm hmem
      · rw [if_neg hk2] at h
        by_cases hk3 : (extract_variables w).any (fun d => !containsKey parsed d) = true
        · rw [if_pos hk3] at h
          exact ih parsed cache parsed' cache' hsubrest hinv h
        · rw [if_neg hk3] at h
          cases hpld : parse_lazy_data fuel w env parsed cache with
          | error e =>
            rw [hpld] at h
            simp at h
          | ok t =>
            obtain ⟨pv, cache1⟩ := t
            rw [hpld] at h
            dsimp only at h
            refine ih (parsed ++ [(k, pv)]) cache1 parsed' cache' hsubrest ?_ h
            refine selfRefInv_append k pv hinv hk1 (mem_containsKey hkm) ?_
            intro hkn
            exfalso
            subst hkn
            have hwv : w = v := keysNodup_unique hnd hkm hmem
            exact hk2 (hwv ▸ hself)

theorem pvmLoop_inv (env : EvalEnv) (m : List (Chars × PyVal)) (n : Chars) (v : PyVal)
    (hnd : keysNodup m) (hmem : (n, v) ∈ m) (hself : n ∈ extract_variables v) :
    ∀ (fuel : Nat) (parsed : List (Chars × PyVal)) (cache : Cache)
      (r : List (Chars × PyVal)) (cache' : Cache),
      SelfRefInv m n v parsed →
      pvmLoop env true m fuel parsed cache = .ok (r, cache') →
      SelfRefInv m n v r ∧ r.length = m.length := by
  intro fuel
  induction fuel with
  | zero =>
    intro parsed cache r cache' _ h
    simp [pvmLoop] at h
  | succ f ih =>
    intro parsed cache r cache' hinv h
    unfold pvmLoop at h
    by_cases hlen : parsed.length = m.length
    · rw [if_pos hlen] at h
      injection h with h2
      injection h2 with h3 h4
      subst h3
      exact ⟨hinv, hlen⟩
    · rw [if_neg hlen] at h
      cases hop : onePass f env true m parsed cache with
      | error e =>
        rw [hop] at h
        simp at h
      | ok t =>
        obtain ⟨parsed1, cache1⟩ := t
        rw [hop] at h
        dsimp only at h
        exact ih parsed1 cache1 r cache'
          (onePass_inv f env m n v hnd hmem hself m parsed cache parsed1 cache1
            (fun p hp => hp) hinv hop) h

/-- C5: amended claim — for every variables mapping containing an entry
whose value references its own name: with `ignore = false`
`parse_variables_mapping` never returns a mapping (the first pass cannot
get past the self-referencing entry without some entry raising first —
in particular when the self-referencing entry is the mapping's *first*
entry the error is `VariableNotFound` naming it; with several
self-referencing entries the error names the first one reached, not
necessarily "that variable" as the claim states, see the
counterexample); with `ignore = true`, any mapping returned maps the name
to its original value unchanged (still lazy). -/
theorem c5_theorem :
    (∀ (fuel : Nat) (m : List (Chars × PyVal)) (n : Chars) (v : PyVal) (env : EvalEnv)
      (cache : Cache), keysNodup m → (n, v) ∈ m → n ∈ extract_variables v →
      ∃ e, parse_variables_mapping fuel m false env cache = .error e) ∧
    (∀ (fuel : Nat) (rest : List (Chars × PyVal)) (n : Chars) (v : PyVal) (env : EvalEnv)
      (cache : Cache), n ∈ extract_variables v →
      parse_variables_mapping (fuel + 1) ((n, v) :: rest) false env cache =
        .error (.variableNotFound n)) ∧
    (∀ (fuel : Nat) (m : List (Chars × PyVal)) (n : Chars) (v : PyVal) (env : EvalEnv)
      (cache : Cache) (r : List (Chars × PyVal)) (cache' : Cache),
      keysNodup m → (n, v) ∈ m → n ∈ extract_variables v →
      parse_variables_mapping fuel m true env cache = .ok (r, cache') →
      lookupAssoc r n = some v) := by
  refine ⟨?_, ?_, ?_⟩
  · intro fuel m n v env cache hnd hmem hself
    match fuel with
    | 0 => exact ⟨Err.fuel, by simp [parse_variables_mapping, pvmLoop]⟩
    | f + 1 =>
      unfold parse_variables_mapping pvmLoop
      have hlen : ¬(([] : List (Chars × PyVal)).length = m.length) := by
        have := List.length_pos.mpr (List.ne_nil_of_mem hmem)
        simp
        omega
      rw [if_neg hlen]
      obtain ⟨e, he⟩ := onePass_selfref_error f env n v m [] cache hnd hmem hself rfl
      rw [he]
      exact ⟨e, rfl⟩
  · intro fuel rest n v env cache hself
    unfold parse_variables_mapping pvmLoop
    rw [if_neg (by simp)]
    have hop : onePass fuel env false ((n, v) :: rest) [] cache =
        .error (.variableNotFound n) := by
      unfold onePass
      rw [if_neg (by simp [containsKey, lookupAssoc]), if_pos hself]
      simp
    rw [hop]
  · intro fuel m n v env cache r cache' hnd hmem hself h
    have hinv0 : SelfRefInv m n v [] := by
      refine ⟨List.nodup_nil, ?_, ?_⟩
      · intro k hk
        simp [containsKey, lookupAssoc] at hk
      · intro x hx
        simp at hx
    obtain ⟨⟨hr1, hr2, hr3⟩, hrlen⟩ :=
      pvmLoop_inv env m n v hnd hmem hself fuel [] cache r cache' hinv0 h
    have hnkeys : n ∈ r.map Prod.fst := by
      refine keys_full (r.map Prod.fst) (m.map Prod.fst) hr1 hnd ?_ ?_ n
        (List.mem_map.mpr ⟨(n, v), hmem, rfl⟩)
      · intro a ha
        exact (containsKey_iff m a).mp (hr2 a ((containsKey_iff r a).mpr ha))
      · simp [hrlen]
    exact lookupAssoc_of_forall hnkeys hr3

/-- C5 counterexample: the mapping has two self-referencing entries,
`s1 ↦ LazyString($s1)` and `s2 ↦ LazyString($s2)`; for the entry `s2` the
claim says `VariableNotFound("s2")` is raised, but the code raises
`VariableNotFound` naming `s1`, the first self-reference reached by the
iteration. -/
theorem c5_counterexample :
    parse_variables_mapping 5
      [("s1".data, .lazyStr "$s1".data placeholderCs [.str "s1".data] false),
        ("s2".data, .lazyStr "$s2".data placeholderCs [.str "s2".data] false)]
      false constEvalEnv [] = .error (.variableNotFound "s1".data) ∧
    "s2".data ∈ extract_variables (.lazyStr "$s2".data placeholderCs [.str "s2".data] false) ∧
    Err.variableNotFound "s1".data ≠ Err.variableNotFound "s2".data := by
  refine ⟨?_, ?_, by decide⟩
  · simp +decide [parse_variables_mapping, pvmLoop, onePass, extract_variables, findVars,
      containsKey, lookupAssoc]
  · simp +decide [extract_variables, findVars]

/-- C5 witness: the spec's scenario S5 — `{token: $token}` raises
`VariableNotFound("token")` with `ignore = false`, and with
`ignore = true` the returned mapping holds the value unchanged (still
lazy). -/
theorem c5_witness :
    parse_variables_mapping 3
      [("token".data, PyVal.lazyStr "$token".data placeholderCs [PyVal.str "token".data] false)]
      false constEvalEnv [] = Except.error (Err.variableNotFound "token".data) ∧
    lookupAssoc
      [("token".data, PyVal.lazyStr "$token".data placeholderCs [PyVal.str "token".data] false)]
      "token".data =
      some (PyVal.lazyStr "$token".data placeholderCs [PyVal.str "token".data] false) := by
  constructor
  · exact c5_theorem.2.1 2 []
      "token".data (PyVal.lazyStr "$token".data placeholderCs [PyVal.str "token".data] false)
      constEvalEnv [] (by simp +decide [extract_variables, findVars])
  · exact c5_theorem.2.2 3
      [("token".data, PyVal.lazyStr "$token".data placeholderCs [PyVal.str "token".data] false)]
      "token".data (PyVal.lazyStr "$token".data placeholderCs [PyVal.str "token".data] false)
      constEvalEnv []
      [("token".data, PyVal.lazyStr "$token".data placeholderCs [PyVal.str "token".data] false)] []
      (by simp [keysNodup]) (by simp) (by simp +decide [extract_variables, findVars])
      (by simp +decide [parse_variables_mapping, pvmLoop, onePass, extract_variables,
        findVars, containsKey, lookupAssoc])

end HttpRunnerParser
